import Mathlib

/-!
Verification development for the ast-code-dup repository: an AST-based
duplicate-function detector for JavaScript/TypeScript/Vue sources.

The repository contains four variants of the tool:
  - src/src/index.js      (the exported module; recast-based printing, vue support)
  - src/unnamed/part_000  (babel traverse/generator, standardizeIdentifiers)
  - src/unnamed/part_001  (esprima/escodegen, in-place identifier renaming)
  - src/unnamed/part_002  (babel generator, no renaming)

This file gives a shallow embedding of the data model and the operations of
those sources: a model of the Babel-style AST node language the tool
manipulates, the code generators (recast / babel generator / escodegen,
external libraries, modelled by one deterministic printer), the SHA-256
digest (node's crypto module, external, implemented here in full and checked
against the standard test vectors), the canonicalizers, the duplicate
grouping, the report generation, the source-span snippet extraction and the
directory scan with JavaScript exception propagation made explicit via
Except.  Theorems about the claims of the specification follow the
definitions.
-/

namespace CodeDup

/-! ## SHA-256, the model of node's crypto module

`crypto.createHash('sha256').update(code).digest('hex')` is an external
library call.  It is modelled here by a complete executable SHA-256 over the
UTF-8 bytes of the input, producing the lowercase hex digest, validated
against the standard test vectors below. -/

/-- Right rotation of a 32-bit word represented as a Nat below 2^32. -/
def rotr32 (n x : Nat) : Nat := ((x >>> n) ||| (x <<< (32 - n))) % 4294967296

/-- Addition modulo 2^32. -/
def add32 (a b : Nat) : Nat := (a + b) % 4294967296

/-- SHA-256 choice function Ch(e,f,g). -/
def shaCh (e f g : Nat) : Nat := (e &&& f) ^^^ ((e ^^^ 4294967295) &&& g)

/-- SHA-256 majority function Maj(a,b,c). -/
def shaMaj (a b c : Nat) : Nat := (a &&& b) ^^^ (a &&& c) ^^^ (b &&& c)

/-- SHA-256 big sigma 0. -/
def bigSigma0 (a : Nat) : Nat := rotr32 2 a ^^^ rotr32 13 a ^^^ rotr32 22 a

/-- SHA-256 big sigma 1. -/
def bigSigma1 (e : Nat) : Nat := rotr32 6 e ^^^ rotr32 11 e ^^^ rotr32 25 e

/-- SHA-256 small sigma 0. -/
def smallSigma0 (x : Nat) : Nat := rotr32 7 x ^^^ rotr32 18 x ^^^ (x >>> 3)

/-- SHA-256 small sigma 1. -/
def smallSigma1 (x : Nat) : Nat := rotr32 17 x ^^^ rotr32 19 x ^^^ (x >>> 10)

/-- The 64 SHA-256 round constants (FIPS 180-4, written in decimal). -/
def shaK : List Nat :=
  [1116352408, 1899447441, 3049323471, 3921009573, 961987163, 1508970993,
   2453635748, 2870763221, 3624381080, 310598401, 607225278, 1426881987,
   1925078388, 2162078206, 2614888103, 3248222580, 3835390401, 4022224774,
   264347078, 604807628, 770255983, 1249150122, 1555081692, 1996064986,
   2554220882, 2821834349, 2952996808, 3210313671, 3336571891, 3584528711,
   113926993, 338241895, 666307205, 773529912, 1294757372, 1396182291,
   1695183700, 1986661051, 2177026350, 2456956037, 2730485921, 2820302411,
   3259730800, 3345764771, 3516065817, 3600352804, 4094571909, 275423344,
   430227734, 506948616, 659060556, 883997877, 958139571, 1322822218,
   1537002063, 1747873779, 1955562222, 2024104815, 2227730452, 2361852424,
   2428436474, 2756734187, 3204031479, 3329325298]

/-- The 8 SHA-256 initial hash values (FIPS 180-4, written in decimal). -/
def shaH0 : List Nat :=
  [1779033703, 3144134277, 1013904242, 2773480762,
   1359893119, 2600822924, 528734635, 1541459225]

/-- UTF-8 encoding of a single Unicode code point. -/
def utf8Bytes (c : Nat) : List Nat :=
  if c < 0x80 then [c]
  else if c < 0x800 then [0xC0 ||| (c >>> 6), 0x80 ||| (c &&& 0x3F)]
  else if c < 0x10000 then
    [0xE0 ||| (c >>> 12), 0x80 ||| ((c >>> 6) &&& 0x3F), 0x80 ||| (c &&& 0x3F)]
  else
    [0xF0 ||| (c >>> 18), 0x80 ||| ((c >>> 12) &&& 0x3F), 0x80 ||| ((c >>> 6) &&& 0x3F),
     0x80 ||| (c &&& 0x3F)]

/-- UTF-8 bytes of a string, each byte a Nat below 256. -/
def strToBytes (s : String) : List Nat := (s.data.map (fun c => utf8Bytes c.toNat)).flatten

/-- Big-endian 8-byte encoding of a Nat. -/
def be64 (n : Nat) : List Nat :=
  [(n >>> 56) &&& 255, (n >>> 48) &&& 255, (n >>> 40) &&& 255, (n >>> 32) &&& 255,
   (n >>> 24) &&& 255, (n >>> 16) &&& 255, (n >>> 8) &&& 255, n &&& 255]

/-- SHA-256 message padding: a 0x80 byte, zeros to 56 mod 64, then the
bit length as a big-endian 64-bit integer. -/
def padMsg (bytes : List Nat) : List Nat :=
  let L := bytes.length
  let zeros := (64 - ((L + 9) % 64)) % 64
  bytes ++ [0x80] ++ List.replicate zeros 0 ++ be64 (8 * L)

/-- Groups a padded byte list into big-endian 32-bit words. -/
def toWords : List Nat → List Nat
  | a :: b :: c :: d :: rest => (((a * 256 + b) * 256 + c) * 256 + d) :: toWords rest
  | _ => []

/-- Groups a word list into 16-word blocks. -/
def toBlocks : List Nat → List (List Nat)
  | w0 :: w1 :: w2 :: w3 :: w4 :: w5 :: w6 :: w7 ::
    w8 :: w9 :: w10 :: w11 :: w12 :: w13 :: w14 :: w15 :: rest =>
      [w0, w1, w2, w3, w4, w5, w6, w7, w8, w9, w10, w11, w12, w13, w14, w15] :: toBlocks rest
  | _ => []

/-- Extends a 16-word block (given reversed) by the given number of schedule
words; returns the full schedule in order. -/
def extendW : Nat → List Nat → List Nat
  | 0, rw => rw.reverse
  | n + 1, rw =>
      extendW n (add32 (add32 (smallSigma1 (rw.getD 1 0)) (rw.getD 6 0))
                       (add32 (smallSigma0 (rw.getD 14 0)) (rw.getD 15 0)) :: rw)

/-- One SHA-256 compression round over the 8-word state. -/
def compressStep (st : List Nat) (kw : Nat × Nat) : List Nat :=
  match st with
  | [a, b, c, d, e, f, g, h] =>
      let t1 := add32 h (add32 (bigSigma1 e) (add32 (shaCh e f g) (add32 kw.1 kw.2)))
      let t2 := add32 (bigSigma0 a) (shaMaj a b c)
      [add32 t1 t2, a, b, c, add32 d t1, e, f, g]
  | l => l

/-- Processes one 16-word block into the running 8-word hash state. -/
def processBlock (h8 : List Nat) (block : List Nat) : List Nat :=
  let w := extendW 48 block.reverse
  let st := (shaK.zip w).foldl compressStep h8
  List.zipWith add32 h8 st

/-- SHA-256 of a byte list as eight 32-bit words. -/
def sha256Words (bytes : List Nat) : List Nat :=
  (toBlocks (toWords (padMsg bytes))).foldl processBlock shaH0

/-- A single lowercase hex digit. -/
def hexDigit (n : Nat) : Char :=
  if n < 10 then Char.ofNat (48 + n) else Char.ofNat (87 + n)

/-- Eight lowercase hex digits of a 32-bit word. -/
def word8Hex (w : Nat) : List Char :=
  [hexDigit ((w >>> 28) &&& 15), hexDigit ((w >>> 24) &&& 15), hexDigit ((w >>> 20) &&& 15),
   hexDigit ((w >>> 16) &&& 15), hexDigit ((w >>> 12) &&& 15), hexDigit ((w >>> 8) &&& 15),
   hexDigit ((w >>> 4) &&& 15), hexDigit (w &&& 15)]

/-- Model of hashFunctionCode (identical in all four sources):
crypto.createHash('sha256').update(code).digest('hex') — the SHA-256 hex
digest of the normalized code.  Deterministic, keyless. -/
def hashFunctionCode (code : String) : String :=
  String.mk ((sha256Words (strToBytes code)).map word8Hex).flatten

/-- SHA-256 test vector: the empty message. -/
example : hashFunctionCode "" =
    "e3b0c44298fc1c149afbf4c8996fb92427ae41e4649b934ca495991b7852b855" := by rfl

/-- SHA-256 test vector: the three-byte message abc. -/
example : hashFunctionCode "abc" =
    "ba7816bf8f01cfea414140de5dae2223b00361a396177a9cb410ff61f20015ad" := by rfl

/-! ## The AST node language

A closed model of the Babel/ESTree node kinds the four sources actually
manipulate: the function forms recognized by extractFunctions and
normalizeFunction plus enough statement/expression kinds to build function
bodies, classes and programs.  Lists of children use the mutually inductive
NodeList so that every traversal below is structural (and hence reduces in
the kernel).  Source locations are not stored on nodes; the collected unit
carries its span separately (see FunctionUnit).  A return statement always
carries an argument in this model; argument-less return is not needed by any
claim. -/

mutual
inductive Node where
  | Identifier (name : String)
  | NumericLiteral (value : Nat)
  | BinaryExpression (op : String) (left right : Node)
  | CallExpression (callee : Node) (args : NodeList)
  | ReturnStatement (argument : Node)
  | ExpressionStatement (expression : Node)
  | BlockStatement (body : NodeList)
  | FunctionDeclaration (id : Option String) (params : NodeList) (body : Node)
      (isGenerator isAsync : Bool)
  | FunctionExpression (id : Option String) (params : NodeList) (body : Node)
      (isGenerator isAsync : Bool)
  | ArrowFunctionExpression (params : NodeList) (body : Node) (isAsync : Bool)
  | ClassMethod (key : String) (params : NodeList) (body : Node)
  | ClassProperty (key : String) (value : Node)
  | ClassDeclaration (id : String) (body : NodeList)
  | Program (body : NodeList)
  | File (program : Node)
inductive NodeList where
  | nil
  | cons (head : Node) (tail : NodeList)
end

/-- Converts an ordinary list of nodes into a NodeList. -/
def nlist : List Node → NodeList
  | [] => .nil
  | h :: t => .cons h (nlist t)

/-- The ESTree type tag of a node, as the sources test it via node.type and
the babel type predicates. -/
def nodeTypeName : Node → String
  | .Identifier _ => "Identifier"
  | .NumericLiteral _ => "NumericLiteral"
  | .BinaryExpression _ _ _ => "BinaryExpression"
  | .CallExpression _ _ => "CallExpression"
  | .ReturnStatement _ => "ReturnStatement"
  | .ExpressionStatement _ => "ExpressionStatement"
  | .BlockStatement _ => "BlockStatement"
  | .FunctionDeclaration _ _ _ _ _ => "FunctionDeclaration"
  | .FunctionExpression _ _ _ _ _ => "FunctionExpression"
  | .ArrowFunctionExpression _ _ _ => "ArrowFunctionExpression"
  | .ClassMethod _ _ _ => "ClassMethod"
  | .ClassProperty _ _ => "ClassProperty"
  | .ClassDeclaration _ _ => "ClassDeclaration"
  | .Program _ => "Program"
  | .File _ => "File"

/-- Tests for the FunctionExpression node kind, as in
node.value.type === 'FunctionExpression'. -/
def isFunctionExpr : Node → Bool
  | .FunctionExpression _ _ _ _ _ => true
  | _ => false

/-! ## Code generation

The sources print ASTs through three external libraries: recast.print
(index.js), the babel generator (part_000 and part_002) and
escodegen.generate (part_001).  All three are deterministic source printers;
they differ only in formatting, which every normalizer immediately strips
(all whitespace runs are deleted).  They are therefore modelled by the one
deterministic printer genNode below.  Comments never arise because nodes in
this model carry none (part_000 additionally passes comments: false, and
index.js deletes comment syntax with a regex before stripping whitespace). -/

mutual
def genNode : Node → String
  | .Identifier n => n
  | .NumericLiteral v => toString v
  | .BinaryExpression op l r => genNode l ++ " " ++ op ++ " " ++ genNode r
  | .CallExpression c args => genNode c ++ "(" ++ genArgs args ++ ")"
  | .ReturnStatement e => "return " ++ genNode e ++ ";"
  | .ExpressionStatement e =>
      if isFunctionExpr e then "(" ++ genNode e ++ ");" else genNode e ++ ";"
  | .BlockStatement b => "\x7b " ++ genStmts b ++ " \x7d"
  | .FunctionDeclaration id ps b g a =>
      (if a then "async " else "") ++ "function" ++ (if g then "*" else "") ++
      (match id with | some n => " " ++ n | none => "") ++
      "(" ++ genArgs ps ++ ") " ++ genNode b
  | .FunctionExpression id ps b g a =>
      (if a then "async " else "") ++ "function" ++ (if g then "*" else "") ++
      (match id with | some n => " " ++ n | none => "") ++
      "(" ++ genArgs ps ++ ") " ++ genNode b
  | .ArrowFunctionExpression ps b a =>
      (if a then "async " else "") ++ "(" ++ genArgs ps ++ ") => " ++ genNode b
  | .ClassMethod k ps b => k ++ "(" ++ genArgs ps ++ ") " ++ genNode b
  | .ClassProperty k v => k ++ " = " ++ genNode v ++ ";"
  | .ClassDeclaration id b => "class " ++ id ++ " \x7b " ++ genStmts b ++ " \x7d"
  | .Program b => genStmts b
  | .File p => genNode p
def genArgs : NodeList → String
  | .nil => ""
  | .cons h .nil => genNode h
  | .cons h t => genNode h ++ ", " ++ genArgs t
def genStmts : NodeList → String
  | .nil => ""
  | .cons h .nil => genNode h
  | .cons h t => genNode h ++ " " ++ genStmts t
end

/-- Deletes every whitespace character of a string — the model of
code.replace(/\s+/g, '') shared by all four normalizers. -/
def stripWs (s : String) : String := String.mk (s.data.filter (fun c => !c.isWhitespace))

/-! ## The four canonicalizers -/

/-- Model of normalizeFunction of src/src/index.js lines 69-73: prints the
node with recast and deletes comments and whitespace with the regex
code.replace(/\/\/.*|\/\*[\s\S]*?\*\/|\s+/g, '').  No identifier is renamed,
although the comment above the source function says identifier names are
replaced with uniform names.  Nodes of this model carry no comments, so of
the regex only the whitespace alternative acts. -/
def idx_normalizeFunction (funcNode : Node) : String := stripWs (genNode funcNode)

/-- Model of normalizeFunction of src/unnamed/part_002 lines 48-51: prints
the node with the babel generator and deletes whitespace.  As in index.js,
no identifier is renamed. -/
def p002_normalizeFunction (funcNode : Node) : String := stripWs (genNode funcNode)

/-- State of the sequential identifier relabeling: the next counter value and
the name map, an insertion-ordered association list exactly like the
JavaScript Map used by the sources. -/
structure RenSt where
  count : Nat
  map : List (String × String)

/-- First-match lookup in an insertion-ordered association list with String
keys — the model both of JavaScript Map.get/has and of property access on a
plain object whose keys are never array indices. -/
def alookup {β : Type} : List (String × β) → String → Option β
  | [], _ => none
  | (k, v) :: t, key => if k == key then some v else alookup t key

/-- Relabels one identifier name through the state: an unseen name is
assigned prefix ++ counter and the counter advances, a seen name maps to its
existing label.  Models the body of the Identifier visitor of
standardizeIdentifiers (part_000 lines 50-55) and of the part_001 enter
callback (lines 44-49), whose label prefixes differ. -/
def renameName (pfx : String) (n : String) (st : RenSt) : String × RenSt :=
  match alookup st.map n with
  | some v => (v, st)
  | none =>
      let v := pfx ++ toString st.count
      (v, ⟨st.count + 1, st.map ++ [(n, v)]⟩)

/-- Relabels an optional identifier name (a function's id slot). -/
def renameOptName (pfx : String) (n : Option String) (st : RenSt) : Option String × RenSt :=
  match n with
  | none => (none, st)
  | some x => let (x', st') := renameName pfx x st; (some x', st')

mutual
/-- Top-to-bottom traversal renaming every Identifier occurrence in
first-seen order: the model of the babel traverse of standardizeIdentifiers
(part_000 lines 45-57) and of the generic traverse of part_001's
normalizeFunction.  The sources mutate node.name in place; the model returns
the rewritten tree, which is the tree those sources leave behind.  Children
are visited in ESTree field order (id, params, body; left, right; callee,
args; key, value). -/
def renameNode (pfx : String) : Node → RenSt → Node × RenSt
  | .Identifier n, st => let (n', st') := renameName pfx n st; (.Identifier n', st')
  | .NumericLiteral v, st => (.NumericLiteral v, st)
  | .BinaryExpression op l r, st =>
      let (l', s1) := renameNode pfx l st
      let (r', s2) := renameNode pfx r s1
      (.BinaryExpression op l' r', s2)
  | .CallExpression c args, st =>
      let (c', s1) := renameNode pfx c st
      let (args', s2) := renameList pfx args s1
      (.CallExpression c' args', s2)
  | .ReturnStatement e, st => let (e', s1) := renameNode pfx e st; (.ReturnStatement e', s1)
  | .ExpressionStatement e, st =>
      let (e', s1) := renameNode pfx e st; (.ExpressionStatement e', s1)
  | .BlockStatement b, st => let (b', s1) := renameList pfx b st; (.BlockStatement b', s1)
  | .FunctionDeclaration id ps b g a, st =>
      let (id', s1) := renameOptName pfx id st
      let (ps', s2) := renameList pfx ps s1
      let (b', s3) := renameNode pfx b s2
      (.FunctionDeclaration id' ps' b' g a, s3)
  | .FunctionExpression id ps b g a, st =>
      let (id', s1) := renameOptName pfx id st
      let (ps', s2) := renameList pfx ps s1
      let (b', s3) := renameNode pfx b s2
      (.FunctionExpression id' ps' b' g a, s3)
  | .ArrowFunctionExpression ps b a, st =>
      let (ps', s1) := renameList pfx ps st
      let (b', s2) := renameNode pfx b s1
      (.ArrowFunctionExpression ps' b' a, s2)
  | .ClassMethod k ps b, st =>
      let (k', s1) := renameName pfx k st
      let (ps', s2) := renameList pfx ps s1
      let (b', s3) := renameNode pfx b s2
      (.ClassMethod k' ps' b', s3)
  | .ClassProperty k v, st =>
      let (k', s1) := renameName pfx k st
      let (v', s2) := renameNode pfx v s1
      (.ClassProperty k' v', s2)
  | .ClassDeclaration id b, st =>
      let (id', s1) := renameName pfx id st
      let (b', s2) := renameList pfx b s1
      (.ClassDeclaration id' b', s2)
  | .Program b, st => let (b', s1) := renameList pfx b st; (.Program b', s1)
  | .File p, st => let (p', s1) := renameNode pfx p st; (.File p', s1)
def renameList (pfx : String) : NodeList → RenSt → NodeList × RenSt
  | .nil, st => (.nil, st)
  | .cons h t, st =>
      let (h', s1) := renameNode pfx h st
      let (t', s2) := renameList pfx t s1
      (.cons h' t', s2)
end

/-- Model of standardizeIdentifiers of src/unnamed/part_000 lines 45-57: a
fresh counter and map, then the renaming traversal with label prefix
identifier_.  Returns the tree the source's in-place mutation leaves
behind. -/
def standardizeIdentifiers (ast : Node) : Node := (renameNode "identifier_" ast ⟨0, []⟩).1

/-- The rewrap step of part_000's normalizeFunction lines 61-69: a
declaration becomes an anonymous function expression via
t.functionExpression(null, funcNode.params, funcNode.body) — note this babel
builder leaves the generator and async flags at their defaults (false) — and
an expression or arrow is wrapped as it stands.  Any other node kind is
unsupported. -/
def nodeToWrapOf : Node → Option Node
  | .FunctionDeclaration _ ps b _ _ =>
      some (.ExpressionStatement (.FunctionExpression none ps b false false))
  | n@(.FunctionExpression _ _ _ _ _) => some (.ExpressionStatement n)
  | n@(.ArrowFunctionExpression _ _ _) => some (.ExpressionStatement n)
  | _ => none

/-- A thrown JavaScript exception, as propagated by the sources (none of
which installs a try/catch anywhere). -/
inductive JsError where
  | referenceError (name : String)
  | thrown (message : String)
deriving DecidableEq

/-- Model of normalizeFunction of src/unnamed/part_000 lines 60-75: rewrap
(or throw for an unsupported node kind), wrap into t.file(t.program([...])),
standardize the identifiers, print with the babel generator, delete
whitespace. -/
def p000_normalizeFunction (funcNode : Node) : Except JsError String :=
  match nodeToWrapOf funcNode with
  | none => .error (.thrown ("Unsupported function node type: " ++ nodeTypeName funcNode))
  | some w =>
      let funcAst := Node.File (.Program (.cons w .nil))
      .ok (stripWs (genNode (standardizeIdentifiers funcAst)))

/-- Model of normalizeFunction of src/unnamed/part_001 lines 38-54: renames
every identifier of the node in place with prefix normalized_, then prints
with escodegen.  The source mutates funcNode; the model returns both the
printed code and the node as the mutation leaves it (second component). -/
def p001_normalizeFunction (funcNode : Node) : String × Node :=
  let renamed := (renameNode "normalized_" funcNode ⟨0, []⟩).1
  (genNode renamed, renamed)

/-! ## Function units and the collector -/

/-- A position in a source file: 1-indexed line, 0-indexed column, as Babel
and esprima produce them (loc.start / loc.end). -/
structure Position where
  line : Nat
  column : Nat

/-- A node's source span, node.loc.  The end position's field is named stop
because end is a reserved word in Lean. -/
structure SourceLocation where
  start : Position
  stop : Position

/-- A collected callable unit.  The sources push the record
(node, filePath); Babel stores the span on node.loc, which this model keeps
as a separate loc field of the unit because Node carries no locations.  Only
the collected node's own loc is ever read downstream (generateReport and
extractFunctionCode). -/
structure FunctionUnit where
  node : Node
  filePath : String
  loc : SourceLocation

/-- The span placeholder attached by the modelled collector (see
extractFunctions). -/
def defaultLoc : SourceLocation := ⟨⟨1, 0⟩, ⟨1, 0⟩⟩

mutual
/-- Pre-order collection of callable units: the model of extractFunctions,
identical in collected sequence across index.js lines 36-55 (handwritten
traverse) and part_000 lines 20-42 (babel traverse): function declarations,
function expressions, arrows and class methods are pushed when visited, and
a class property whose value is a function expression pushes the value.  The
traversal then descends into the value as well, so such a value is pushed a
second time when visited itself — faithful to both sources, which do not
stop the descent.  Collected units carry the placeholder span defaultLoc
(locations are not modelled inside Node; no theorem below depends on a
collected unit's span). -/
def collectNode (fp : String) : Node → List FunctionUnit
  | .Identifier _ => []
  | .NumericLiteral _ => []
  | .BinaryExpression _ l r => collectNode fp l ++ collectNode fp r
  | .CallExpression c args => collectNode fp c ++ collectList fp args
  | .ReturnStatement e => collectNode fp e
  | .ExpressionStatement e => collectNode fp e
  | .BlockStatement b => collectList fp b
  | n@(.FunctionDeclaration _ ps b _ _) =>
      ⟨n, fp, defaultLoc⟩ :: (collectList fp ps ++ collectNode fp b)
  | n@(.FunctionExpression _ ps b _ _) =>
      ⟨n, fp, defaultLoc⟩ :: (collectList fp ps ++ collectNode fp b)
  | n@(.ArrowFunctionExpression ps b _) =>
      ⟨n, fp, defaultLoc⟩ :: (collectList fp ps ++ collectNode fp b)
  | n@(.ClassMethod _ ps b) =>
      ⟨n, fp, defaultLoc⟩ :: (collectList fp ps ++ collectNode fp b)
  | .ClassProperty _ v =>
      (if isFunctionExpr v then [⟨v, fp, defaultLoc⟩] else []) ++ collectNode fp v
  | .ClassDeclaration _ b => collectList fp b
  | .Program b => collectList fp b
  | .File p => collectNode fp p
def collectList (fp : String) : NodeList → List FunctionUnit
  | .nil => []
  | .cons h t => collectNode fp h ++ collectList fp t
end

/-- extractFunctions(ast, filePath): the ordered sequence of callable units
of a parsed tree. -/
def extractFunctions (ast : Node) (filePath : String) : List FunctionUnit :=
  collectNode filePath ast

/-! ## The cluster builder -/

/-- The hash a unit receives in index.js's findDuplicateFunctions lines
85-87: hashFunctionCode(normalizeFunction(node)). -/
def unitHash (u : FunctionUnit) : String := hashFunctionCode (idx_normalizeFunction u.node)

/-- Assignment to a key of an insertion-ordered association list: an
existing key keeps its position and gets the new value, a new key is
appended — JavaScript object assignment for non-index string keys. -/
def aset {β : Type} : List (String × β) → String → β → List (String × β)
  | [], k, v => [(k, v)]
  | (k', v') :: t, k, v => if k' == k then (k', v) :: t else (k', v') :: aset t k v

/-- The accumulator of findDuplicateFunctions: the two plain objects hashes
(hash to first unit) and duplicates (hash to all units of a duplicated
hash), both insertion-ordered since SHA-256 hex keys are never array
indices. -/
structure FdfSt where
  hashes : List (String × FunctionUnit)
  duplicates : List (String × List FunctionUnit)

/-- One iteration of the forEach body of findDuplicateFunctions (index.js
lines 85-97, identically part_000 lines 87-97 and part_002 lines 63-73) for
a unit whose hash is h: a first occurrence is recorded in hashes; a second
occurrence creates duplicates[h] = [hashes[h]] and pushes the unit; a later
occurrence pushes the unit onto the existing list. -/
def fdfStepH (st : FdfSt) (u : FunctionUnit) (h : String) : FdfSt :=
  match alookup st.hashes h with
  | some first =>
      match alookup st.duplicates h with
      | some l => ⟨st.hashes, aset st.duplicates h (l ++ [u])⟩
      | none => ⟨st.hashes, st.duplicates ++ [(h, [first, u])]⟩
  | none => ⟨st.hashes ++ [(h, u)], st.duplicates⟩

/-- The step of index.js's findDuplicateFunctions, which computes the hash
with the total index.js normalizer. -/
def fdfStep (st : FdfSt) (u : FunctionUnit) : FdfSt := fdfStepH st u (unitHash u)

/-- Model of findDuplicateFunctions of src/src/index.js lines 81-100: folds
the batch through fdfStep and returns the duplicates object. -/
def idx_findDuplicateFunctions (functions : List FunctionUnit) :
    List (String × List FunctionUnit) :=
  (functions.foldl fdfStep ⟨[], []⟩).duplicates

/-- The loop of part_000's findDuplicateFunctions lines 83-100: as index.js,
except that normalizeFunction may throw (unsupported node kinds), and the
uncaught exception aborts the whole loop. -/
def p000_fdfGo (st : FdfSt) : List FunctionUnit → Except JsError (List (String × List FunctionUnit))
  | [] => .ok st.duplicates
  | u :: rest =>
      match p000_normalizeFunction u.node with
      | .error e => .error e
      | .ok code => p000_fdfGo (fdfStepH st u (hashFunctionCode code)) rest

/-- Model of findDuplicateFunctions of src/unnamed/part_000 lines 83-100. -/
def p000_findDuplicateFunctions (functions : List FunctionUnit) :
    Except JsError (List (String × List FunctionUnit)) :=
  p000_fdfGo ⟨[], []⟩ functions

/-! ## Specification-side orderings and groups -/

/-- The units of a batch carrying a given hash, in batch order — the
discovery-order group of that hash. -/
def groupOf (fns : List FunctionUnit) (h : String) : List FunctionUnit :=
  fns.filter (fun u => unitHash u == h)

/-- Modelled from the spec: the order in which hashes are first observed
during the scan (the spec's stated emission order for clusters). -/
def firstSeen (hs : List String) : List String :=
  hs.foldl (fun acc h => if acc.contains h then acc else acc ++ [h]) []

/-- Helper for secondSeen: pre is the already-processed prefix. -/
def secondSeenAux (pre : List String) : List String → List String
  | [] => []
  | h :: t => (if pre.count h == 1 then [h] else []) ++ secondSeenAux (pre ++ [h]) t

/-- The order in which hashes reach their second occurrence — the order in
which the sources insert keys into the duplicates object. -/
def secondSeen (hs : List String) : List String := secondSeenAux [] hs

/-! ## Snippet extraction -/

/-- Helper for splitOnChar: characters still to process, and the current
segment reversed. -/
def splitOnCharAux (sep : Char) : List Char → List Char → List String
  | [], acc => [String.mk acc.reverse]
  | c :: rest, acc =>
      if c = sep then String.mk acc.reverse :: splitOnCharAux sep rest []
      else splitOnCharAux sep rest (c :: acc)

/-- JavaScript text.split(sep) for a one-character separator: the list of
separator-delimited segments, with an empty final segment after a trailing
separator. -/
def splitOnChar (sep : Char) (s : String) : List String := splitOnCharAux sep s.data []

/-- JavaScript text.split('\n'). -/
def splitNl (s : String) : List String := splitOnChar '\n' s

/-- JavaScript String.prototype.substring: both indices are clamped into
[0, length] and swapped if out of order. -/
def jsSubstring (s : String) (a b : Int) : String :=
  let len : Int := s.length
  let a' := min (max a 0) len
  let b' := min (max b 0) len
  let lo := min a' b'
  let hi := max a' b'
  String.mk ((s.data.drop lo.toNat).take (hi - lo).toNat)

/-- Indexing into the line array.  JavaScript would yield undefined (and
then throw on .substring) outside the range; every claim below uses
in-range spans, and the model returns the empty string there. -/
def lineAt (lines : List String) (i : Int) : String :=
  if i < 0 then "" else lines.getD i.toNat ""

/-- Model of extractFunctionCode (identical in all four sources; index.js
lines 124-149), applied to the text content of the file it would read: the
lines are split on the newline character, the 1-indexed lines are shifted
down by one, and — as written in the source — the start column is also
shifted down by one while the end column is not. -/
def extractFunctionCode (content : String) (loc : SourceLocation) : String :=
  let lines := splitNl content
  let startLine : Int := (loc.start.line : Int) - 1
  let endLine : Int := (loc.stop.line : Int) - 1
  let startColumn : Int := (loc.start.column : Int) - 1
  let endColumn : Int := (loc.stop.column : Int)
  if startLine == endLine then
    jsSubstring (lineAt lines startLine) startColumn endColumn
  else
    let first := jsSubstring (lineAt lines startLine) startColumn (lineAt lines startLine).length
    let middle := (lines.drop (startLine.toNat + 1)).take (endLine.toNat - startLine.toNat - 1)
    let last := jsSubstring (lineAt lines endLine) 0 endColumn
    String.intercalate "\n" (first :: (middle ++ [last]))

/-! ## Report generation -/

/-- One member line of a cluster block: 文件: path, 行 start - 行 end. -/
def renderInstanceLine (u : FunctionUnit) : String :=
  "  文件: " ++ u.filePath ++ ", 行 " ++ toString u.loc.start.line ++
  " - 行 " ++ toString u.loc.stop.line ++ "\n"

/-- One report block for a qualifying cluster, snippet extracted from the
first instance's file via readFile. -/
def renderBlock (readFile : String → String) (p : String × List FunctionUnit) : String :=
  match p.2 with
  | [] => ""
  | first :: _ =>
      "发现重复函数（" ++ toString p.2.length ++ " 次）：\n" ++
      String.join (p.2.map renderInstanceLine) ++
      "代码片段:\n" ++ extractFunctionCode (readFile first.filePath) first.loc ++ "\n\n"

/-- The qualifying clusters of generateReport's loop (index.js lines
106-117): the duplicates entries whose instance list has length at least
minOccurrences, in duplicates key order. -/
def generateReportBlocks (duplicates : List (String × List FunctionUnit)) (minOccurrences : Nat) :
    List (String × List FunctionUnit) :=
  duplicates.filter (fun p => minOccurrences ≤ p.2.length)

/-- Model of generateReport of src/src/index.js lines 103-121 (identically
part_000 and part_002): the report text written to the output file, one
block per qualifying cluster in duplicates key order. -/
def generateReport (readFile : String → String)
    (duplicates : List (String × List FunctionUnit)) (minOccurrences : Nat) : String :=
  String.join ((generateReportBlocks duplicates minOccurrences).map (renderBlock readFile))

/-! ## Files, parsing and the directory scan -/

/-- Model of node's path.extname as the sources use it: the extension of
the basename, from the final dot; a leading-dot-only name has no
extension. -/
def extname (p : String) : String :=
  let base := (splitOnChar '/' p).getLastD ""
  let parts := splitOnChar '.' base
  match parts with
  | [] => ""
  | [_] => ""
  | ["", _] => ""
  | _ => "." ++ parts.getLastD ""

/-- A source file of the model file system.  The parsers are external
collaborators (@babel/parser, esprima, @vue/compiler-sfc), so a file is
represented by its raw text together with its parse outcome: a script file
parses to a tree or throws a syntax error; a vue file carries the parse
outcome of its script block, or none when it has no script block. -/
inductive SourceFile where
  | script (text : String) (parsed : Except String Node)
  | vue (text : String) (scriptParsed : Option (Except String Node))

/-- The raw text of a model file, as fs.readFileSync returns it. -/
def sourceText : SourceFile → String
  | .script t _ => t
  | .vue t _ => t

/-- Model of parseFile (part_000 lines 10-17, identical in part_001/part_002
and index.js lines 9-16): the babel/esprima parse of the file's text, a
thrown SyntaxError when the text is malformed.  Applied to a vue file the
underlying parser would equally throw; no scan below reaches that case. -/
def parseFile : SourceFile → Except JsError Node
  | .script _ (.ok ast) => .ok ast
  | .script _ (.error msg) => .error (.thrown msg)
  | .vue _ _ => .error (.thrown "SyntaxError: Unexpected token")

/-- Model of parseVueFile of src/src/index.js lines 19-33: returns the parse
of the script block, or null (none) when the descriptor has no script and no
scriptSetup; a malformed script block throws. -/
def parseVueFile : SourceFile → Except JsError (Option Node)
  | .vue _ none => .ok none
  | .vue _ (some (.ok ast)) => .ok (some ast)
  | .vue _ (some (.error msg)) => .error (.thrown msg)
  | .script _ _ => .ok none

/-- Model of parseFileByExtension of src/src/index.js lines 151-157.  For a
.vue path it parses the vue file.  For every other path the source line 156
reads return parseFile(filePathe) — the name filePathe is bound nowhere (the
parameter is filePath), so evaluating the argument throws a ReferenceError
before parseFile is ever entered. -/
def parseFileByExtension (src : SourceFile) (filePath : String) :
    Except JsError (Option Node) :=
  if extname filePath == ".vue" then parseVueFile src
  else .error (.referenceError "filePathe")

/-! A model file-system tree: named files with contents, and named
directories, whose entry order is the order fs.readdirSync reports. -/

mutual
inductive Fs where
  | file (name : String) (src : SourceFile)
  | dir (name : String) (entries : FsList)
inductive FsList where
  | nil
  | cons (head : Fs) (tail : FsList)
end

mutual
/-- The text contents of every file of a tree, keyed by full path. -/
def fsTexts (dirPath : String) : Fs → List (String × String)
  | .file name src => [(dirPath ++ "/" ++ name, sourceText src)]
  | .dir name entries => fsTextsList (dirPath ++ "/" ++ name) entries
def fsTextsList (dirPath : String) : FsList → List (String × String)
  | .nil => []
  | .cons e rest => fsTexts dirPath e ++ fsTextsList dirPath rest
end

/-- fs.readFileSync by path over the model file system (used by the report's
snippet extraction). -/
def fsReadFile (dirPath : String) (entries : FsList) (path : String) : String :=
  (alookup (fsTextsList dirPath entries) path).getD ""

mutual
/-- One step of index.js's scanDir (lines 163-180) on one directory entry:
directories are recursed into unconditionally; a file whose extension is in
['.js', '.ts', '.vue'] is parsed via parseFileByExtension and, when the
result is non-null, its functions are collected; other files are skipped.
There is no try/catch anywhere in the source, so a thrown error propagates
and aborts the entire scan (modelled by Except). -/
def idx_scanFs (dirPath : String) : Fs → Except JsError (List FunctionUnit)
  | .dir name entries => idx_scanFsList (dirPath ++ "/" ++ name) entries
  | .file name src =>
      if [".js", ".ts", ".vue"].contains (extname name) then
        match parseFileByExtension src (dirPath ++ "/" ++ name) with
        | .error e => .error e
        | .ok none => .ok []
        | .ok (some ast) => .ok (extractFunctions ast (dirPath ++ "/" ++ name))
      else .ok []
def idx_scanFsList (dirPath : String) : FsList → Except JsError (List FunctionUnit)
  | .nil => .ok []
  | .cons e rest =>
      match idx_scanFs dirPath e with
      | .error err => .error err
      | .ok units =>
          match idx_scanFsList dirPath rest with
          | .error err => .error err
          | .ok more => .ok (units ++ more)
end

/-- Model of scanProject of src/src/index.js lines 160-188 on a model root
directory: scan, group, and produce the report text that would be written to
the output file.  Any exception thrown while scanning aborts the run before
a report exists. -/
def idx_scanProject (rootPath : String) (entries : FsList) (minOccurrences : Nat) :
    Except JsError String :=
  match idx_scanFsList rootPath entries with
  | .error e => .error e
  | .ok allFunctions =>
      .ok (generateReport (fsReadFile rootPath entries)
            (idx_findDuplicateFunctions allFunctions) minOccurrences)

mutual
/-- One step of part_000's scanDir (lines 147-164): extensions
['.js', '.ts'], parseFile called directly (no vue support, and no typo), and
still no try/catch, so a SyntaxError thrown by the parser aborts the whole
scan. -/
def p000_scanFs (dirPath : String) : Fs → Except JsError (List FunctionUnit)
  | .dir name entries => p000_scanFsList (dirPath ++ "/" ++ name) entries
  | .file name src =>
      if [".js", ".ts"].contains (extname name) then
        match parseFile src with
        | .error e => .error e
        | .ok ast => .ok (extractFunctions ast (dirPath ++ "/" ++ name))
      else .ok []
def p000_scanFsList (dirPath : String) : FsList → Except JsError (List FunctionUnit)
  | .nil => .ok []
  | .cons e rest =>
      match p000_scanFs dirPath e with
      | .error err => .error err
      | .ok units =>
          match p000_scanFsList dirPath rest with
          | .error err => .error err
          | .ok more => .ok (units ++ more)
end

/-- Model of scanProject of src/unnamed/part_000 lines 144-169: scan, group
(where normalizeFunction may throw on an unsupported unit), report. -/
def p000_scanProject (rootPath : String) (entries : FsList) (minOccurrences : Nat) :
    Except JsError String :=
  match p000_scanFsList rootPath entries with
  | .error e => .error e
  | .ok allFunctions =>
      match p000_findDuplicateFunctions allFunctions with
      | .error e => .error e
      | .ok duplicates =>
          .ok (generateReport (fsReadFile rootPath entries) duplicates minOccurrences)

/-! ## Association-list lemmas -/

theorem alookup_snoc_self {β : Type} (l : List (String × β)) (k : String) (v : β)
    (h : alookup l k = none) : alookup (l ++ [(k, v)]) k = some v := by
  induction l with
  | nil => simp [alookup]
  | cons p t ih =>
      obtain ⟨k', v'⟩ := p
      by_cases hc : k' = k
      · subst hc; simp [alookup] at h
      · simp only [alookup, List.cons_append, beq_iff_eq, hc, if_false] at h ⊢
        exact ih h

theorem alookup_snoc_ne {β : Type} (l : List (String × β)) (k k' : String) (v : β)
    (h : k' ≠ k) : alookup (l ++ [(k, v)]) k' = alookup l k' := by
  induction l with
  | nil => simp [alookup, beq_iff_eq, Ne.symm h]
  | cons p t ih =>
      obtain ⟨k₀, v₀⟩ := p
      by_cases hc : k₀ = k'
      · simp [alookup, hc]
      · simp [alookup, hc, ih]

theorem alookup_aset_self {β : Type} (l : List (String × β)) (k : String) (v : β) :
    alookup (aset l k v) k = some v := by
  induction l with
  | nil => simp [aset, alookup]
  | cons p t ih =>
      obtain ⟨k₀, v₀⟩ := p
      by_cases hc : k₀ = k
      · simp [aset, alookup, hc]
      · simp [aset, alookup, hc, ih]

theorem alookup_aset_ne {β : Type} (l : List (String × β)) (k k' : String) (v : β)
    (h : k' ≠ k) : alookup (aset l k v) k' = alookup l k' := by
  induction l with
  | nil => simp [aset, alookup, beq_iff_eq, Ne.symm h]
  | cons p t ih =>
      obtain ⟨k₀, v₀⟩ := p
      by_cases hc : k₀ = k
      · subst hc
        simp [aset, alookup, beq_iff_eq, Ne.symm h]
      · simp [aset, alookup, hc, ih]

theorem map_fst_aset_of_mem {β : Type} (l : List (String × β)) (k : String) (v v₀ : β)
    (h : alookup l k = some v₀) : (aset l k v).map Prod.fst = l.map Prod.fst := by
  induction l with
  | nil => simp [alookup] at h
  | cons p t ih =>
      obtain ⟨k₀, v'⟩ := p
      by_cases hc : k₀ = k
      · simp [aset, hc]
      · simp only [alookup, beq_iff_eq, hc, if_false] at h
        simp [aset, hc, ih h]

theorem not_mem_keys_of_alookup_none {β : Type} (l : List (String × β)) (k : String)
    (h : alookup l k = none) : k ∉ l.map Prod.fst := by
  induction l with
  | nil => simp
  | cons p t ih =>
      obtain ⟨k₀, v₀⟩ := p
      by_cases hc : k₀ = k
      · subst hc; simp [alookup] at h
      · simp only [alookup, beq_iff_eq, hc, if_false] at h
        simp [Ne.symm hc, ih h]

theorem mem_of_alookup {β : Type} (l : List (String × β)) (k : String) (v : β)
    (h : alookup l k = some v) : (k, v) ∈ l := by
  induction l with
  | nil => simp [alookup] at h
  | cons p t ih =>
      obtain ⟨k₀, v₀⟩ := p
      by_cases hc : k₀ = k
      · subst hc
        simp only [alookup, beq_self_eq_true, if_true, Option.some.injEq] at h
        simp [h]
      · simp only [alookup, beq_iff_eq, hc, if_false] at h
        simp [ih h]

theorem alookup_of_mem_nodup {β : Type} (l : List (String × β)) (k : String) (v : β)
    (hnd : (l.map Prod.fst).Nodup) (h : (k, v) ∈ l) : alookup l k = some v := by
  induction l with
  | nil => simp at h
  | cons p t ih =>
      obtain ⟨k₀, v₀⟩ := p
      simp only [List.map_cons, List.nodup_cons] at hnd
      rcases List.mem_cons.mp h with hh | hh
      · cases hh
        simp [alookup]
      · have hk₀ : k₀ ≠ k := by
          intro he
          exact hnd.1 (he ▸ (List.mem_map.mpr ⟨(k, v), hh, rfl⟩))
        simp only [alookup, beq_iff_eq, hk₀, if_false]
        exact ih hnd.2 hh


/-! ## Group and ordering lemmas -/

theorem groupOf_snoc (pre : List FunctionUnit) (u : FunctionUnit) (h : String) :
    groupOf (pre ++ [u]) h = groupOf pre h ++ if unitHash u == h then [u] else [] := by
  by_cases hc : unitHash u = h <;> simp [groupOf, List.filter_append, hc]

theorem count_map_unitHash (pre : List FunctionUnit) (h : String) :
    (pre.map unitHash).count h = (groupOf pre h).length := by
  induction pre with
  | nil => simp [groupOf]
  | cons u t ih =>
      by_cases hc : unitHash u = h <;>
        simp [groupOf, List.filter_cons, List.count_cons, hc] at * <;> omega

theorem secondSeenAux_snoc (t : List String) : ∀ (pre : List String) (h : String),
    secondSeenAux pre (t ++ [h]) =
      secondSeenAux pre t ++ if (pre ++ t).count h == 1 then [h] else [] := by
  induction t with
  | nil => intro pre h; simp [secondSeenAux]
  | cons x t' ih =>
      intro pre h
      simp only [List.cons_append, secondSeenAux, List.append_eq]
      rw [ih (pre ++ [x]) h]
      simp [List.append_assoc]

theorem secondSeen_snoc (hs : List String) (h : String) :
    secondSeen (hs ++ [h]) = secondSeen hs ++ if hs.count h == 1 then [h] else [] := by
  simpa [secondSeen] using secondSeenAux_snoc hs [] h

/-! ## The cluster-builder invariant -/

/-- The invariant of findDuplicateFunctions after processing the prefix pre
of the batch: hashes maps each seen hash to the first unit carrying it,
duplicates maps exactly the hashes seen at least twice to the full group in
discovery order, the duplicates keys stand in second-occurrence order, and
no key repeats. -/
def FdfInv (pre : List FunctionUnit) (st : FdfSt) : Prop :=
  (∀ h, alookup st.hashes h = (groupOf pre h).head?) ∧
  (∀ h, alookup st.duplicates h =
      if 2 ≤ (groupOf pre h).length then some (groupOf pre h) else none) ∧
  st.duplicates.map Prod.fst = secondSeen (pre.map unitHash) ∧
  (st.duplicates.map Prod.fst).Nodup

theorem fdfInv_nil : FdfInv [] ⟨[], []⟩ := by
  refine ⟨?_, ?_, ?_, ?_⟩ <;> simp [alookup, groupOf, secondSeen, secondSeenAux]

theorem fdfInv_step (pre : List FunctionUnit) (st : FdfSt) (u : FunctionUnit)
    (hInv : FdfInv pre st) : FdfInv (pre ++ [u]) (fdfStep st u) := by
  obtain ⟨h1, h2, h3, h4⟩ := hInv
  unfold fdfStep fdfStepH
  split
  · next first hH =>
      have hfirst : (groupOf pre (unitHash u)).head? = some first := by rw [← h1, hH]
      obtain ⟨g', hg⟩ : ∃ g', groupOf pre (unitHash u) = first :: g' := by
        cases hgg : groupOf pre (unitHash u) with
        | nil => rw [hgg] at hfirst; simp at hfirst
        | cons a t =>
            rw [hgg] at hfirst
            simp only [List.head?_cons, Option.some.injEq] at hfirst
            exact ⟨t, by rw [hfirst]⟩
      split
      · next l hD =>
          have hsome := h2 (unitHash u)
          rw [hD] at hsome
          have hlen : 2 ≤ (groupOf pre (unitHash u)).length := by
            by_contra hlt
            rw [if_neg hlt] at hsome
            exact Option.noConfusion hsome
          have hl : l = groupOf pre (unitHash u) := by
            rw [if_pos hlen] at hsome
            exact (Option.some.injEq _ _ ▸ hsome)
          refine ⟨?_, ?_, ?_, ?_⟩
          · intro h
            rw [groupOf_snoc]
            by_cases hc : unitHash u = h
            · subst hc
              simp only [beq_self_eq_true, if_true]
              rw [h1, hg]
              simp
            · simp [hc, h1 h]
          · intro h
            rw [groupOf_snoc]
            by_cases hc : h = unitHash u
            · subst hc
              simp only [alookup_aset_self, beq_self_eq_true, if_true]
              rw [hl, if_pos (by simp; omega)]
            · rw [alookup_aset_ne _ _ _ _ hc]
              have hbe : (unitHash u == h) = false := by
                simp only [beq_eq_false_iff_ne, ne_eq]
                exact fun he => hc he.symm
              simp [hbe, h2 h]
          · rw [map_fst_aset_of_mem _ _ _ _ hD, h3]
            rw [List.map_append, List.map_cons, List.map_nil, secondSeen_snoc]
            have : ((pre.map unitHash).count (unitHash u) == 1) = false := by
              simp only [beq_eq_false_iff_ne, ne_eq]
              rw [count_map_unitHash]
              omega
            simp [this]
          · rw [map_fst_aset_of_mem _ _ _ _ hD]
            exact h4
      · next hD =>
          have hnone := h2 (unitHash u)
          rw [hD] at hnone
          have hlen : ¬ 2 ≤ (groupOf pre (unitHash u)).length := by
            intro hlt
            rw [if_pos hlt] at hnone
            exact Option.noConfusion hnone
          have hgone : groupOf pre (unitHash u) = [first] := by
            rw [hg] at hlen ⊢
            simp only [List.length_cons] at hlen
            have : g' = [] := by
              cases g' with
              | nil => rfl
              | cons a t => simp at hlen
            rw [this]
          refine ⟨?_, ?_, ?_, ?_⟩
          · intro h
            rw [groupOf_snoc]
            by_cases hc : unitHash u = h
            · subst hc
              simp only [beq_self_eq_true, if_true]
              rw [h1, hgone]
              simp
            · simp [hc, h1 h]
          · intro h
            rw [groupOf_snoc]
            by_cases hc : h = unitHash u
            · subst hc
              rw [alookup_snoc_self _ _ _ hD, hgone]
              simp
            · rw [alookup_snoc_ne _ _ _ _ hc]
              have hbe : (unitHash u == h) = false := by
                simp only [beq_eq_false_iff_ne, ne_eq]
                exact fun he => hc he.symm
              simp [hbe, h2 h]
          · rw [List.map_append, List.map_cons, List.map_nil, List.map_append,
              List.map_cons, List.map_nil, secondSeen_snoc, h3]
            have : ((pre.map unitHash).count (unitHash u) == 1) = true := by
              rw [count_map_unitHash, hgone]
              simp
            simp [this]
          · rw [List.map_append, List.map_cons, List.map_nil, List.nodup_append]
            refine ⟨h4, List.nodup_singleton _, ?_⟩
            intro a ha hb
            simp only [List.mem_singleton] at hb
            subst hb
            exact not_mem_keys_of_alookup_none _ _ hD (h3 ▸ ha)
  · next hH =>
      have hg : groupOf pre (unitHash u) = [] := by
        have := h1 (unitHash u)
        rw [hH] at this
        cases hgg : groupOf pre (unitHash u) with
        | nil => rfl
        | cons a t => rw [hgg] at this; simp at this
      refine ⟨?_, ?_, ?_, ?_⟩
      · intro h
        rw [groupOf_snoc]
        by_cases hc : h = unitHash u
        · subst hc
          rw [alookup_snoc_self _ _ _ hH, hg]
          simp
        · rw [alookup_snoc_ne _ _ _ _ hc]
          have hbe : (unitHash u == h) = false := by
            simp only [beq_eq_false_iff_ne, ne_eq]
            exact fun he => hc he.symm
          simp [hbe, h1 h]
      · intro h
        rw [groupOf_snoc]
        by_cases hc : h = unitHash u
        · subst hc
          have hd : alookup st.duplicates (unitHash u) = none := by
            rw [h2 (unitHash u), hg]
            simp
          rw [hd, hg]
          simp
        · have hbe : (unitHash u == h) = false := by
            simp only [beq_eq_false_iff_ne, ne_eq]
            exact fun he => hc he.symm
          simp [hbe, h2 h]
      · rw [List.map_append, List.map_cons, List.map_nil, secondSeen_snoc, h3]
        have : ((pre.map unitHash).count (unitHash u) == 1) = false := by
          simp only [beq_eq_false_iff_ne, ne_eq]
          rw [count_map_unitHash, hg]
          simp
        simp [this]
      · exact h4

theorem fdfInv_foldl (fns : List FunctionUnit) : ∀ (pre : List FunctionUnit) (st : FdfSt),
    FdfInv pre st → FdfInv (pre ++ fns) (fns.foldl fdfStep st) := by
  induction fns with
  | nil => intro pre st h; simpa using h
  | cons u t ih =>
      intro pre st h
      have h' := fdfInv_step pre st u h
      have hres := ih (pre ++ [u]) (fdfStep st u) h'
      simpa [List.append_assoc] using hres

theorem fdfInv_main (fns : List FunctionUnit) :
    FdfInv fns (fns.foldl fdfStep ⟨[], []⟩) := by
  simpa using fdfInv_foldl fns [] ⟨[], []⟩ fdfInv_nil

/-- Pointwise agreement of a pair predicate with a key predicate carries a
filter through the key projection. -/
theorem filter_map_fst {β : Type} (l : List (String × β)) (p : String → Bool)
    (q : String × β → Bool) (hpq : ∀ x ∈ l, q x = p x.1) :
    (l.filter q).map Prod.fst = (l.map Prod.fst).filter p := by
  induction l with
  | nil => simp
  | cons x t ih =>
      have hx := hpq x (List.mem_cons_self x t)
      have ht : ∀ y ∈ t, q y = p y.1 := fun y hy => hpq y (List.mem_cons_of_mem x hy)
      simp only [List.filter_cons, List.map_cons]
      rw [← hx]
      cases hq : q x <;> simp [hq, ih ht]

/-! ## Concrete fixtures used by the claim theorems -/

/-- A function body consisting of return x;. -/
def retIdent (x : String) : Node :=
  .BlockStatement (.cons (.ReturnStatement (.Identifier x)) .nil)

/-- The anonymous function expression function (a) that returns a. -/
def fnExprA : Node :=
  .FunctionExpression none (.cons (.Identifier "a") .nil) (retIdent "a") false false

/-- The same function body under the bijective local renaming a to b. -/
def fnExprB : Node :=
  .FunctionExpression none (.cons (.Identifier "b") .nil) (retIdent "b") false false

/-- The named declaration function f(a) returning a. -/
def fnDeclPlain : Node :=
  .FunctionDeclaration (some "f") (.cons (.Identifier "a") .nil) (retIdent "a") false false

/-- The async named declaration async function f(a) returning a. -/
def fnDeclAsync : Node :=
  .FunctionDeclaration (some "f") (.cons (.Identifier "a") .nil) (retIdent "a") false true

/-- The async anonymous expression async function (a) returning a. -/
def fnExprAsync : Node :=
  .FunctionExpression none (.cons (.Identifier "a") .nil) (retIdent "a") false true

/-- A two-parameter function returning its first parameter (a different
structure, hence a different canonical form, from fnExprA). -/
def fnExprArity2 : Node :=
  .FunctionExpression none (.cons (.Identifier "a") (.cons (.Identifier "b") .nil))
    (retIdent "a") false false

/-- A collected unit for fnExprA. -/
def unitA : FunctionUnit := ⟨fnExprA, "a.js", ⟨⟨1, 0⟩, ⟨3, 1⟩⟩⟩

/-- A collected unit for fnExprArity2. -/
def unitB : FunctionUnit := ⟨fnExprArity2, "b.js", ⟨⟨1, 0⟩, ⟨3, 1⟩⟩⟩

/-- A batch in which hash A is observed first (position 0) but reaches its
second occurrence later (position 3) than hash B does (position 2); both
groups end with three members. -/
def scanBatch : List FunctionUnit := [unitA, unitB, unitB, unitA, unitA, unitB]

/-- Three structurally identical functions. -/
def tripleBatch : List FunctionUnit := [unitA, unitA, unitA]

/-- The single line of the span-extraction example of the spec. -/
def c2Line : String := "const x = add(1,2);"

/-- The example span of the claim: line 1, columns 10 to 19. -/
def c2Loc : SourceLocation := ⟨⟨1, 10⟩, ⟨1, 19⟩⟩

/-- A class method unit, as extractFunctions collects from a class. -/
def classMethodNode : Node :=
  .ClassMethod "m" .nil (.BlockStatement (.cons (.ReturnStatement (.NumericLiteral 1)) .nil))

/-- A program containing one class with one method. -/
def classAst : Node :=
  .File (.Program (.cons (.ClassDeclaration "C" (.cons classMethodNode .nil)) .nil))

/-- The unit the collector produces for classMethodNode. -/
def classMethodUnit : FunctionUnit := ⟨classMethodNode, "c.js", defaultLoc⟩

/-- A program with one plain function declaration. -/
def sampleFnAst : Node := .File (.Program (.cons fnDeclPlain .nil))

/-- The text of that program. -/
def sampleFnText : String := "function f(a) \x7b\n  return a;\n\x7d"

/-- A well-formed .js source file. -/
def appJsFile : SourceFile := .script sampleFnText (.ok sampleFnAst)

/-- A directory with one malformed file followed by two identical valid
files — the malformed-file-isolation scenario of the spec. -/
def c3Entries : FsList :=
  .cons (.file "bad.js" (.script "functio oops(" (.error "SyntaxError: Unexpected token (1:13)")))
    (.cons (.file "dup1.js" appJsFile)
      (.cons (.file "dup2.js" appJsFile) .nil))

/-- A directory with a single valid .js file. -/
def c8Entries : FsList := .cons (.file "app.js" appJsFile) .nil

/-- A directory with a single valid .vue file whose script block parses. -/
def c8VueEntries : FsList :=
  .cons (.file "App.vue"
    (.vue "<script>\nfunction f(a) \x7b return a; \x7d\n</script>" (some (.ok sampleFnAst)))) .nil

/-- The tree part_001's normalizeFunction leaves behind for fnDeclPlain. -/
def p001Renamed : Node :=
  .FunctionDeclaration (some "normalized_0") (.cons (.Identifier "normalized_1") .nil)
    (.BlockStatement (.cons (.ReturnStatement (.Identifier "normalized_1")) .nil)) false false

/-! ## Claim theorems -/

/-- C1 (code_bug): renaming invariance fails on index.js.  The function
bodies function(a)(return a) and function(b)(return b) differ only by the
consistent bijective renaming a to b of their one local identifier, yet
index.js's normalizeFunction — whose own comment says identifier names are
replaced with uniform names — keeps the original spellings, so the
normalized strings and hence the ContentHashes differ.  part_000's
normalizeFunction (which does standardize identifiers) maps both to the same
canonical form, witnessing what the claim intended. -/
theorem C1_index_normalize_not_renaming_invariant :
    idx_normalizeFunction fnExprA = "function(a)\x7breturna;\x7d" ∧
    idx_normalizeFunction fnExprB = "function(b)\x7breturnb;\x7d" ∧
    idx_normalizeFunction fnExprA ≠ idx_normalizeFunction fnExprB ∧
    hashFunctionCode (idx_normalizeFunction fnExprA) ≠
      hashFunctionCode (idx_normalizeFunction fnExprB) ∧
    p000_normalizeFunction fnExprA = p000_normalizeFunction fnExprB := by
  refine ⟨by rfl, by rfl, by decide, by decide, by rfl⟩

/-- C2 (code_bug): span extraction is off by one at the start column.  On the
line const x = add(1,2); with the claim's span of line 1, columns 10 to 19
(0-indexed, half-open), the text covered by the span is add(1,2); — but
extractFunctionCode subtracts one from the start column (and not from the
end column), returning the string that starts one character early.  It
matches neither the covered text nor the claim's expected add(1,2). -/
theorem C2_extract_start_column_off_by_one :
    extractFunctionCode c2Line c2Loc = " add(1,2);" ∧
    extractFunctionCode c2Line c2Loc ≠ "add(1,2)" ∧
    extractFunctionCode c2Line c2Loc ≠ "add(1,2);" := by
  refine ⟨by rfl, by decide, by decide⟩

/-- C3 (code_bug): a parse failure aborts the whole scan.  On a directory
holding one malformed file and two identical valid files, part_000's
scanProject propagates the parser's SyntaxError out of scanDir (there is no
try/catch anywhere), so no file is skipped, no report is produced and no
cluster of the two valid files exists; index.js's scanProject aborts even
earlier, with the ReferenceError of its parseFileByExtension typo, on the
first .js file whether or not it is malformed. -/
theorem C3_parse_failure_aborts_scan :
    p000_scanProject "proj" c3Entries 2 =
        .error (.thrown "SyntaxError: Unexpected token (1:13)") ∧
    idx_scanProject "proj" c3Entries 2 = .error (.referenceError "filePathe") := by
  exact ⟨rfl, rfl⟩

/-- C4 (confirmed): for any batch and any minOccurrences at least 2 (the
spec's minimum meaningful value), the report holds exactly one block per
hash whose discovery-order group has at least minOccurrences members, and
that block lists exactly the group. -/
theorem C4_cluster_threshold (fns : List FunctionUnit) (minOcc : Nat) (h : String)
    (hmin : 2 ≤ minOcc) :
    ((∃ l, (h, l) ∈ generateReportBlocks (idx_findDuplicateFunctions fns) minOcc) ↔
        minOcc ≤ (groupOf fns h).length) ∧
    (∀ l, (h, l) ∈ generateReportBlocks (idx_findDuplicateFunctions fns) minOcc →
        l = groupOf fns h) ∧
    ((generateReportBlocks (idx_findDuplicateFunctions fns) minOcc).map Prod.fst).Nodup := by
  obtain ⟨h1, h2, h3, h4⟩ := fdfInv_main fns
  have h2' : ∀ hh, alookup (idx_findDuplicateFunctions fns) hh =
      if 2 ≤ (groupOf fns hh).length then some (groupOf fns hh) else none := h2
  have h4' : ((idx_findDuplicateFunctions fns).map Prod.fst).Nodup := h4
  have hmem : ∀ l, (h, l) ∈ generateReportBlocks (idx_findDuplicateFunctions fns) minOcc ↔
      ((h, l) ∈ idx_findDuplicateFunctions fns ∧ minOcc ≤ l.length) := by
    intro l
    simp [generateReportBlocks, List.mem_filter]
  have hval : ∀ l, (h, l) ∈ idx_findDuplicateFunctions fns →
      l = groupOf fns h ∧ 2 ≤ (groupOf fns h).length := by
    intro l hl
    have hs := alookup_of_mem_nodup _ _ _ h4' hl
    rw [h2' h] at hs
    by_cases hcond : 2 ≤ (groupOf fns h).length
    · rw [if_pos hcond] at hs
      exact ⟨(Option.some.injEq _ _ ▸ hs).symm, hcond⟩
    · rw [if_neg hcond] at hs
      exact absurd hs (by simp)
  refine ⟨⟨?_, ?_⟩, ?_, ?_⟩
  · rintro ⟨l, hl⟩
    obtain ⟨hmm, hlen⟩ := (hmem l).mp hl
    obtain ⟨hlg, _⟩ := hval l hmm
    rw [hlg] at hlen
    exact hlen
  · intro hlen
    have hcond : 2 ≤ (groupOf fns h).length := le_trans hmin hlen
    have hs : alookup (idx_findDuplicateFunctions fns) h = some (groupOf fns h) := by
      rw [h2' h, if_pos hcond]
    exact ⟨groupOf fns h, (hmem _).mpr ⟨mem_of_alookup _ _ _ hs, hlen⟩⟩
  · intro l hl
    exact (hval l ((hmem l).mp hl).1).1
  · have hsub : List.Sublist
        ((generateReportBlocks (idx_findDuplicateFunctions fns) minOcc).map Prod.fst)
        ((idx_findDuplicateFunctions fns).map Prod.fst) :=
      (List.filter_sublist _).map Prod.fst
    exact h4'.sublist hsub

/-- Witness for C4: three identical functions with minOccurrences 3 (exactly
one cluster of size 3) and with minOccurrences 4 (no cluster), both via
C4_cluster_threshold at the hash of the repeated function. -/
theorem C4_cluster_threshold_witness :
    (2 ≤ 3 ∧
      (((∃ l, (unitHash unitA, l) ∈
            generateReportBlocks (idx_findDuplicateFunctions tripleBatch) 3) ↔
          3 ≤ (groupOf tripleBatch (unitHash unitA)).length) ∧
        (∀ l, (unitHash unitA, l) ∈
            generateReportBlocks (idx_findDuplicateFunctions tripleBatch) 3 →
          l = groupOf tripleBatch (unitHash unitA)) ∧
        ((generateReportBlocks (idx_findDuplicateFunctions tripleBatch) 3).map
            Prod.fst).Nodup)) ∧
    (2 ≤ 4 ∧
      (((∃ l, (unitHash unitA, l) ∈
            generateReportBlocks (idx_findDuplicateFunctions tripleBatch) 4) ↔
          4 ≤ (groupOf tripleBatch (unitHash unitA)).length) ∧
        (∀ l, (unitHash unitA, l) ∈
            generateReportBlocks (idx_findDuplicateFunctions tripleBatch) 4 →
          l = groupOf tripleBatch (unitHash unitA)) ∧
        ((generateReportBlocks (idx_findDuplicateFunctions tripleBatch) 4).map
            Prod.fst).Nodup)) :=
  ⟨⟨by decide, C4_cluster_threshold tripleBatch 3 (unitHash unitA) (by decide)⟩,
   ⟨by decide, C4_cluster_threshold tripleBatch 4 (unitHash unitA) (by decide)⟩⟩

/-- C5 counterexample: on scanBatch the qualifying clusters are emitted in
the order B then A — the order the hashes reached their second occurrence —
while hash A was first observed before hash B, so emission order is not
first-observed order. -/
theorem C5_first_observed_order_counterexample :
    (generateReportBlocks (idx_findDuplicateFunctions scanBatch) 3).map Prod.fst =
        [unitHash unitB, unitHash unitA] ∧
    firstSeen (scanBatch.map unitHash) = [unitHash unitA, unitHash unitB] ∧
    unitHash unitA ≠ unitHash unitB := by
  refine ⟨by rfl, by rfl, by decide⟩

/-- C5 (corrected): the report is a deterministic pure function of the
batch, and the qualifying clusters are emitted in the order the hashes
reached their SECOND occurrence (the order the keys entered the duplicates
object), filtered by the threshold — not in first-observed order. -/
theorem C5_second_occurrence_order (fns : List FunctionUnit) (minOcc : Nat) :
    (generateReportBlocks (idx_findDuplicateFunctions fns) minOcc).map Prod.fst =
      (secondSeen (fns.map unitHash)).filter
        (fun h => minOcc ≤ (groupOf fns h).length) := by
  obtain ⟨h1, h2, h3, h4⟩ := fdfInv_main fns
  have h2' : ∀ hh, alookup (idx_findDuplicateFunctions fns) hh =
      if 2 ≤ (groupOf fns hh).length then some (groupOf fns hh) else none := h2
  have h3' : (idx_findDuplicateFunctions fns).map Prod.fst =
      secondSeen (fns.map unitHash) := h3
  have h4' : ((idx_findDuplicateFunctions fns).map Prod.fst).Nodup := h4
  rw [generateReportBlocks, ← h3']
  apply filter_map_fst
  intro x hx
  obtain ⟨k, v⟩ := x
  have hs := alookup_of_mem_nodup _ _ _ h4' hx
  rw [h2' k] at hs
  by_cases hcond : 2 ≤ (groupOf fns k).length
  · rw [if_pos hcond] at hs
    have hv : v = groupOf fns k := (Option.some.injEq _ _ ▸ hs).symm
    simp [hv]
  · rw [if_neg hcond] at hs
    exact absurd hs (by simp)

/-- C6 counterexample: an async declaration and an async anonymous
expression with identical parameters and identical body receive different
canonical forms from part_000's normalizeFunction, because the rewrap
t.functionExpression(null, params, body) drops the declaration's async flag
while the expression keeps it. -/
theorem C6_async_counterexample :
    p000_normalizeFunction fnDeclAsync =
        .ok "(function(identifier_0)\x7breturnidentifier_0;\x7d);" ∧
    p000_normalizeFunction fnExprAsync =
        .ok "(asyncfunction(identifier_0)\x7breturnidentifier_0;\x7d);" ∧
    p000_normalizeFunction fnDeclAsync ≠ p000_normalizeFunction fnExprAsync := by
  refine ⟨by rfl, by rfl, ?_⟩
  intro h
  rw [show p000_normalizeFunction fnDeclAsync =
        Except.ok "(function(identifier_0)\x7breturnidentifier_0;\x7d);" from rfl,
      show p000_normalizeFunction fnExprAsync =
        Except.ok "(asyncfunction(identifier_0)\x7breturnidentifier_0;\x7d);" from rfl] at h
  injection h with h'
  exact absurd h' (by decide)

/-- C6 (corrected): for plain (non-generator, non-async) functions, a named
declaration and the anonymous expression with the same parameters and body
are rewrapped by part_000's normalizeFunction into the identical wrapped
tree and therefore receive byte-identical canonical forms (hence equal
ContentHashes). -/
theorem C6_declaration_anonymous_equivalence (name : String) (params : NodeList)
    (body : Node) :
    p000_normalizeFunction (.FunctionDeclaration (some name) params body false false) =
      p000_normalizeFunction (.FunctionExpression none params body false false) := by
  rfl

/-- C7 (code_bug): part_000's extractFunctions collects a ClassMethod unit,
but its normalizeFunction throws Unsupported function node type on it, and
findDuplicateFunctions has no handler — the batch containing such a unit
makes the whole clustering (and with it the scan) fail rather than excluding
the unit. -/
theorem C7_class_method_unit_fatal :
    extractFunctions classAst "c.js" = [classMethodUnit] ∧
    p000_findDuplicateFunctions [classMethodUnit] =
        .error (.thrown "Unsupported function node type: ClassMethod") := by
  exact ⟨rfl, rfl⟩

/-- C8 (code_bug): .js and .ts files are never parsed by index.js.  Its
parseFileByExtension evaluates parseFile(filePathe) where filePathe is an
unbound name, so every non-vue eligible file raises a ReferenceError that
aborts scanProject — here on a directory with a single perfectly valid .js
file — while a .vue file still goes through the intact parseVueFile path. -/
theorem C8_js_file_reference_error :
    parseFileByExtension appJsFile "proj/app.js" = .error (.referenceError "filePathe") ∧
    idx_scanProject "proj" c8Entries 3 = .error (.referenceError "filePathe") ∧
    idx_scanProject "proj" c8VueEntries 3 = .ok "" := by
  exact ⟨rfl, rfl, rfl⟩

/-- C9 (code_bug): canonicalization mutates the collected node.  part_001's
normalizeFunction renames every identifier of the unit's tree in place
(node.name = identifierMap.get(node.name)), so after canonicalizing
function f(a) returning a the node reads function normalized_0(normalized_1)
— the original tree is not preserved for a second canonicalization or for a
nested unit. -/
theorem C9_normalize_mutates_node :
    (p001_normalizeFunction fnDeclPlain).2 = p001Renamed ∧ p001Renamed ≠ fnDeclPlain := by
  constructor
  · rfl
  · intro h
    simp only [p001Renamed, fnDeclPlain] at h
    injection h with h1 h2 h3 h4 h5
    injection h1 with h6
    exact absurd h6 (by decide)

/-- C10 (confirmed): for every batch, the duplicates map of
findDuplicateFunctions holds a hash as a key exactly when at least two units
of the batch produce that hash, the stored list is exactly the batch's
discovery-order group of that hash (so its first element is the earliest
such unit), and no key repeats. -/
theorem C10_duplicate_map_invariant (fns : List FunctionUnit) :
    (∀ h, alookup (idx_findDuplicateFunctions fns) h =
        if 2 ≤ (groupOf fns h).length then some (groupOf fns h) else none) ∧
    ((idx_findDuplicateFunctions fns).map Prod.fst).Nodup := by
  obtain ⟨h1, h2, h3, h4⟩ := fdfInv_main fns
  exact ⟨h2, h4⟩

end CodeDup
